import Mathlib

/-!
# Verification of the disk-scheduling core of `app.py`

Shallow embedding of the four scheduling policies (FCFS, SSTF, SCAN, C-SCAN)
of `src/app.py`, together with the cost evaluation performed by the
"Run Simulation" handler and the "Compare All Algorithms" handler.

Positions are modelled as `Int` (Python ints), seek totals as `Nat`
(sums of absolute values), and the float divisions of the handlers as
exact rationals (`ℚ`).  A Python runtime failure (the `ZeroDivisionError`
raised when `len(requests) == 0`) is modelled by `Option`: the handler
returns `none` exactly when the Python code would raise.
-/

namespace DiskSched

/-- `sum(abs(order[i] - order[i-1]) for i in range(1, len(order)))`:
the total seek distance of a visit order (0 for orders of length ≤ 1). -/
def seekTotal : List Int → Nat
  | a :: b :: rest => (b - a).natAbs + seekTotal (b :: rest)
  | _ => 0

/-- `fcfs(requests, head)` from `app.py` lines 9–12:
`order = [head] + requests`, total = sum of consecutive absolute gaps. -/
def fcfs (requests : List Int) (head : Int) : List Int × Nat :=
  let order := head :: requests
  (order, seekTotal order)

/-- Inner fold of Python `min(reqs, key=...)`: scan the remaining elements,
replacing the current best `b` only on a strictly smaller key (so the
first-encountered minimum wins ties). -/
def pyMinAux (key : Int → Nat) (b : Int) : List Int → Int
  | [] => b
  | a :: xs => pyMinAux key (if key a < key b then a else b) xs

/-- Python `min(reqs, key=...)`: `none` on the empty list (Python raises),
otherwise the first element attaining the minimal key. -/
def pyMin (key : Int → Nat) : List Int → Option Int
  | [] => none
  | x :: xs => some (pyMinAux key x xs)

/-- The `while reqs:` loop of `sstf` (`app.py` lines 19–23), with fuel equal
to the length of the working list: repeatedly pick
`min(reqs, key=lambda x: abs(x - current))`, append it, and remove it
(`reqs.remove` deletes the first occurrence, i.e. `List.erase`). -/
def sstfGo (key : Int → Int → Nat) : Nat → List Int → Int → List Int
  | 0, _, _ => []
  | n + 1, reqs, current =>
    match pyMin (key current) reqs with
    | none => []
    | some nearest => nearest :: sstfGo key n (reqs.erase nearest) nearest

/-- The distance key `lambda x: abs(x - current)` used by `sstf`. -/
def sstfKey (current x : Int) : Nat := (x - current).natAbs

/-- `sstf(requests, head)` from `app.py` lines 14–26. -/
def sstf (requests : List Int) (head : Int) : List Int × Nat :=
  let order := head :: sstfGo sstfKey requests.length requests head
  (order, seekTotal order)

/-- Python `sorted` on an integer list (ascending).  The sorted arrangement
of a multiset of integers is unique, so any correct sort coincides with
CPython's Timsort on values. -/
def pySorted (l : List Int) : List Int :=
  List.insertionSort (· ≤ ·) l

/-- `scan(requests, head, disk_size, direction)` from `app.py` lines 28–42:
partition into `left` (`< head`) and `right` (`>= head`), each sorted;
direction `"right"` gives `[head] + right + [disk_size-1] + left[::-1]`,
anything else gives `[head] + left[::-1] + [0] + right`. -/
def scan (requests : List Int) (head : Int) (disk_size : Int) (direction : String) :
    List Int × Nat :=
  let left := pySorted (requests.filter fun r => r < head)
  let right := pySorted (requests.filter fun r => head ≤ r)
  let order :=
    if direction = "right" then head :: (right ++ (disk_size - 1) :: left.reverse)
    else head :: (left.reverse ++ (0 : Int) :: right)
  (order, seekTotal order)

/-- `c_scan(requests, head, disk_size, direction)` from `app.py` lines 45–55:
direction `"right"` gives `[head] + right + [disk_size-1, 0] + left`,
anything else gives `[head] + left[::-1] + [0, disk_size-1] + right[::-1]`. -/
def c_scan (requests : List Int) (head : Int) (disk_size : Int) (direction : String) :
    List Int × Nat :=
  let left := pySorted (requests.filter fun r => r < head)
  let right := pySorted (requests.filter fun r => head ≤ r)
  let order :=
    if direction = "right" then head :: (right ++ (disk_size - 1) :: (0 : Int) :: left)
    else head :: (left.reverse ++ (0 : Int) :: (disk_size - 1) :: right.reverse)
  (order, seekTotal order)

/-- The four policy selectors of the `algorithms` dict (`app.py` lines 99–104),
in declaration order. -/
inductive Policy
  | FCFS
  | SSTF
  | SCAN
  | CSCAN
deriving DecidableEq, Repr

/-- Dispatch of the "Run Simulation" handler (`app.py` lines 140–150):
SCAN and C-SCAN receive `disk_size` and the selected direction, FCFS and
SSTF are called as `selected_algo(requests, head)`. -/
def runPolicy (p : Policy) (requests : List Int) (head disk_size : Int)
    (direction : String) : List Int × Nat :=
  match p with
  | .FCFS => fcfs requests head
  | .SSTF => sstf requests head
  | .SCAN => scan requests head disk_size direction
  | .CSCAN => c_scan requests head disk_size direction

/-- Lines 153–154 of `app.py`:
`avg_seek = total / len(requests)` (raises `ZeroDivisionError`, i.e. `none`,
when `requests` is empty) and
`throughput = len(requests) / total if total != 0 else 0`. -/
def simulationMetrics (requests : List Int) (total : Nat) : Option (ℚ × ℚ) :=
  if requests.length = 0 then none
  else some ((total : ℚ) / (requests.length : ℚ),
    if total ≠ 0 then (requests.length : ℚ) / (total : ℚ) else 0)

/-- The "Run Simulation" handler (`app.py` lines 134–160) restricted to its
computational content: run the selected policy, then compute the metrics;
`none` models the `ZeroDivisionError` on an empty request list. -/
def runSimulation (p : Policy) (requests : List Int) (head disk_size : Int)
    (direction : String) : Option (List Int × Nat × ℚ × ℚ) :=
  let result := runPolicy p requests head disk_size direction
  match simulationMetrics requests result.2 with
  | none => none
  | some m => some (result.1, result.2, m.1, m.2)

/-- The per-policy call of the "Compare All Algorithms" loop
(`app.py` lines 171–177): SCAN and C-SCAN run with the fixed direction
`"right"`, the others through the `algorithms` dict. -/
def compareRun (requests : List Int) (head disk_size : Int) (name : String) :
    List Int × Nat :=
  if name = "SCAN" then scan requests head disk_size "right"
  else if name = "C-SCAN" then c_scan requests head disk_size "right"
  else if name = "SSTF" then sstf requests head
  else fcfs requests head

/-- The keys of the `algorithms` dict in declaration order (`app.py` 99–104);
Python dicts preserve insertion order, so the comparison loop and the result
dicts iterate in this order. -/
def algorithmNames : List String := ["FCFS", "SSTF", "SCAN", "C-SCAN"]

/-- The "Compare All Algorithms" handler (`app.py` lines 165–190): run every
policy over the same input, then build one row per policy with total,
average (`results[a] / len(request_list)`, a `ZeroDivisionError` — `none` —
on an empty list) and throughput
(`len(request_list) / results[a] if results[a] != 0 else 0`). -/
def compareAll (requests : List Int) (head disk_size : Int) :
    Option (List (String × List Int × Nat × ℚ × ℚ)) :=
  let results := algorithmNames.map fun name =>
    (name, compareRun requests head disk_size name)
  if requests.length = 0 then none
  else some (results.map fun e =>
    (e.1, e.2.1, e.2.2, (e.2.2 : ℚ) / (requests.length : ℚ),
      if e.2.2 ≠ 0 then (requests.length : ℚ) / (e.2.2 : ℚ) else 0))

/-- Spec-side description of the element Python `min(reqs, key=...)` selects:
`m` occurs in `xs`, every element strictly before that occurrence has a
strictly larger key, and no element of `xs` has a smaller key — i.e. the
first-encountered minimum in iteration order. -/
def FirstEncounteredMin (key : Int → Nat) (xs : List Int) (m : Int) : Prop :=
  ∃ l₁ l₂, xs = l₁ ++ m :: l₂ ∧ (∀ y ∈ l₁, key m < key y) ∧ ∀ y ∈ xs, key m ≤ key y

/-- Spec-side greedy chain for SSTF: `SstfChain current reqs visited` holds
when `visited` is obtained from the working list `reqs` by repeatedly taking
the remaining request at minimal absolute distance from the current position
(first-encountered on ties) and deleting its first occurrence. -/
inductive SstfChain : Int → List Int → List Int → Prop
  | nil (current : Int) : SstfChain current [] []
  | cons {current m : Int} {reqs rest : List Int}
      (hmin : FirstEncounteredMin (sstfKey current) reqs m)
      (hrest : SstfChain m (reqs.erase m) rest) :
      SstfChain current reqs (m :: rest)

/-- The local variables of `sstf` (`app.py` lines 14–23): the caller's list
object bound to the parameter `requests`, the working copy `reqs` created by
`requests.copy()` (a distinct object, so mutating one never affects the
other), the `order` accumulator, and the `current` position. -/
structure SstfState where
  requests : List Int
  reqs : List Int
  order : List Int
  current : Int

/-- Statement-level model of the `while reqs:` loop of `sstf`: each iteration
reads `reqs`, appends to `order`, deletes from `reqs` (`reqs.remove(nearest)`)
and assigns `current`; no statement of the loop writes to the `requests`
field. -/
def sstfRun : Nat → SstfState → SstfState
  | 0, s => s
  | n + 1, s =>
    match pyMin (sstfKey s.current) s.reqs with
    | none => s
    | some nearest =>
      sstfRun n ⟨s.requests, s.reqs.erase nearest, s.order ++ [nearest], nearest⟩

example : fcfs [82, 170, 43, 140, 24, 16, 190] 50 =
    ([50, 82, 170, 43, 140, 24, 16, 190], 642) := by decide

example : sstf [82, 170, 43, 140, 24, 16, 190] 50 =
    ([50, 43, 24, 16, 82, 140, 170, 190], 208) := by decide

example : (scan [82, 170, 43, 140, 24, 16, 190] 50 200 "right").1 =
    [50, 82, 140, 170, 190, 199, 43, 24, 16] := by decide

example : (c_scan [82, 170, 43, 140, 24, 16, 190] 50 200 "right").1 =
    [50, 82, 140, 170, 190, 199, 0, 16, 24, 43] := by decide

example : runSimulation .SCAN [5] 3 200 "right" = some ([3, 5, 199], 196, 196, 1 / 196) := by
  have h : scan [5] 3 200 "right" = ([3, 5, 199], 196) := by decide
  simp [runSimulation, runPolicy, simulationMetrics, h]

/-- Characterization of the `min` fold: either the seed `b` survives (no
element has a strictly smaller key than `b`), or the result occurs in `xs`,
strictly beats `b` and everything before its occurrence, and is no larger
than everything after it. -/
theorem pyMinAux_spec (key : Int → Nat) (xs : List Int) : ∀ b : Int,
    (pyMinAux key b xs = b ∧ ∀ y ∈ xs, key b ≤ key y) ∨
    (∃ l₁ l₂, xs = l₁ ++ pyMinAux key b xs :: l₂ ∧
      key (pyMinAux key b xs) < key b ∧
      (∀ y ∈ l₁, key (pyMinAux key b xs) < key y) ∧
      ∀ y ∈ l₂, key (pyMinAux key b xs) ≤ key y) := by
  induction xs with
  | nil => exact fun b => Or.inl ⟨rfl, by simp⟩
  | cons a xs ih =>
    intro b
    by_cases h : key a < key b
    · have heq : pyMinAux key b (a :: xs) = pyMinAux key a xs := by
        simp [pyMinAux, h]
      rw [heq]
      rcases ih a with ⟨he, hall⟩ | ⟨l₁, l₂, hsplit, hlt, h₁, h₂⟩
      · refine Or.inr ⟨[], xs, by simp [he], ?_, by simp, ?_⟩
        · rw [he]; exact h
        · intro y hy; rw [he]; exact hall y hy
      · refine Or.inr ⟨a :: l₁, l₂, by rw [List.cons_append, ← hsplit], hlt.trans h, ?_, h₂⟩
        intro y hy
        rcases List.mem_cons.mp hy with rfl | hy
        · exact hlt
        · exact h₁ y hy
    · have heq : pyMinAux key b (a :: xs) = pyMinAux key b xs := by
        simp [pyMinAux, h]
      rw [heq]
      rcases ih b with ⟨he, hall⟩ | ⟨l₁, l₂, hsplit, hlt, h₁, h₂⟩
      · refine Or.inl ⟨he, ?_⟩
        intro y hy
        rcases List.mem_cons.mp hy with rfl | hy
        · exact Nat.le_of_not_lt h
        · exact hall y hy
      · refine Or.inr ⟨a :: l₁, l₂, by rw [List.cons_append, ← hsplit], hlt, ?_, h₂⟩
        intro y hy
        rcases List.mem_cons.mp hy with rfl | hy
        · exact Nat.lt_of_lt_of_le hlt (Nat.le_of_not_lt h)
        · exact h₁ y hy

/-- Python `min(xs, key=...)` returns the first-encountered minimum. -/
theorem pyMin_firstMin {key : Int → Nat} {xs : List Int} {m : Int}
    (h : pyMin key xs = some m) : FirstEncounteredMin key xs m := by
  match xs, h with
  | x :: xs, h =>
    have hm : pyMinAux key x xs = m := Option.some.inj h
    rcases pyMinAux_spec key xs x with ⟨he, hall⟩ | ⟨l₁, l₂, hsplit, hlt, h₁, h₂⟩
    · obtain rfl : m = x := by rw [← hm, he]
      refine ⟨[], xs, rfl, by simp, ?_⟩
      intro y hy
      rcases List.mem_cons.mp hy with rfl | hy
      · exact Nat.le_refl _
      · exact hall y hy
    · rw [hm] at hsplit hlt h₁ h₂
      refine ⟨x :: l₁, l₂, by rw [List.cons_append, ← hsplit], ?_, ?_⟩
      · intro y hy
        rcases List.mem_cons.mp hy with rfl | hy
        · exact hlt
        · exact h₁ y hy
      · intro y hy
        rcases List.mem_cons.mp hy with rfl | hy
        · exact Nat.le_of_lt hlt
        · rw [hsplit] at hy
          rcases List.mem_append.mp hy with hy | hy
          · exact Nat.le_of_lt (h₁ y hy)
          · rcases List.mem_cons.mp hy with rfl | hy
            · exact Nat.le_refl _
            · exact h₂ y hy

/-- A first-encountered minimum is a member of the list. -/
theorem FirstEncounteredMin.mem {key : Int → Nat} {xs : List Int} {m : Int}
    (h : FirstEncounteredMin key xs m) : m ∈ xs := by
  obtain ⟨l₁, l₂, rfl, -, -⟩ := h
  simp

/-- The SSTF loop with exact fuel builds a greedy nearest-first chain. -/
theorem sstfGo_chain (n : Nat) : ∀ (reqs : List Int) (current : Int),
    n = reqs.length → SstfChain current reqs (sstfGo sstfKey n reqs current) := by
  induction n with
  | zero =>
    intro reqs current h
    obtain rfl : reqs = [] := List.length_eq_zero.mp h.symm
    exact SstfChain.nil current
  | succ n ih =>
    intro reqs current h
    match reqs, h with
    | x :: xs, h =>
      have hmin : pyMin (sstfKey current) (x :: xs) =
          some (pyMinAux (sstfKey current) x xs) := rfl
      set m := pyMinAux (sstfKey current) x xs with hm
      have hfm : FirstEncounteredMin (sstfKey current) (x :: xs) m := pyMin_firstMin hmin
      have hgo : sstfGo sstfKey (n + 1) (x :: xs) current =
          m :: sstfGo sstfKey n ((x :: xs).erase m) m := by
        simp [sstfGo, hmin]
      rw [hgo]
      refine SstfChain.cons hfm (ih _ _ ?_)
      have hlen := List.length_erase_of_mem hfm.mem
      simp only [List.length_cons] at h hlen
      omega

/-- The SSTF loop with exact fuel emits a permutation of its working list. -/
theorem sstfGo_perm (n : Nat) : ∀ (reqs : List Int) (current : Int),
    n = reqs.length → (sstfGo sstfKey n reqs current).Perm reqs := by
  induction n with
  | zero =>
    intro reqs current h
    obtain rfl : reqs = [] := List.length_eq_zero.mp h.symm
    exact List.Perm.refl _
  | succ n ih =>
    intro reqs current h
    match reqs, h with
    | x :: xs, h =>
      have hmin : pyMin (sstfKey current) (x :: xs) =
          some (pyMinAux (sstfKey current) x xs) := rfl
      set m := pyMinAux (sstfKey current) x xs with hm
      have hmem : m ∈ x :: xs := (pyMin_firstMin hmin).mem
      have hgo : sstfGo sstfKey (n + 1) (x :: xs) current =
          m :: sstfGo sstfKey n ((x :: xs).erase m) m := by
        simp [sstfGo, hmin]
      rw [hgo]
      have hlen : n = ((x :: xs).erase m).length := by
        have := List.length_erase_of_mem hmem
        simp only [List.length_cons] at h this
        omega
      exact ((ih _ m hlen).cons m).trans (List.perm_cons_erase hmem).symm

/-- No iteration of the modelled `sstf` loop writes the `requests` field. -/
theorem sstfRun_requests (n : Nat) : ∀ s : SstfState,
    (sstfRun n s).requests = s.requests := by
  induction n with
  | zero => intro s; rfl
  | succ n ih =>
    intro s
    simp only [sstfRun]
    cases hp : pyMin (sstfKey s.current) s.reqs with
    | none => rfl
    | some nearest => exact ih _

/-- The `order` accumulated by the modelled loop is the functional `sstfGo`. -/
theorem sstfRun_order (n : Nat) : ∀ (req0 reqs ord : List Int) (cur : Int),
    (sstfRun n ⟨req0, reqs, ord, cur⟩).order = ord ++ sstfGo sstfKey n reqs cur := by
  induction n with
  | zero => intro req0 reqs ord cur; simp [sstfRun, sstfGo]
  | succ n ih =>
    intro req0 reqs ord cur
    simp only [sstfRun, sstfGo]
    cases hp : pyMin (sstfKey cur) reqs with
    | none => simp
    | some nearest => rw [ih]; simp

/-- Splitting a list by `< a` and `a ≤` preserves length. -/
theorem length_filter_split (l : List Int) (a : Int) :
    (l.filter fun x => x < a).length + (l.filter fun x => a ≤ x).length = l.length := by
  induction l with
  | nil => rfl
  | cons x xs ih =>
    by_cases h : x < a
    · have h' : ¬ a ≤ x := not_le.mpr h
      simp [List.filter_cons, h, h']
      omega
    · have h' : a ≤ x := not_lt.mp h
      simp [List.filter_cons, h, h']
      omega

/-- `sorted` produces an ascending list. -/
theorem pySorted_sorted (l : List Int) : List.Sorted (· ≤ ·) (pySorted l) :=
  List.sorted_insertionSort _ l

/-- `sorted` produces a permutation of its input. -/
theorem pySorted_perm (l : List Int) : (pySorted l).Perm l :=
  List.perm_insertionSort _ l

/-- `sorted` preserves length. -/
theorem pySorted_length (l : List Int) : (pySorted l).length = l.length :=
  (pySorted_perm l).length_eq

/-- The order produced by `scan`, spelt out for each direction. -/
theorem scan_fst (requests : List Int) (head disk_size : Int) (direction : String) :
    (scan requests head disk_size direction).1 =
      if direction = "right" then
        head :: (pySorted (requests.filter fun r => head ≤ r) ++
          (disk_size - 1) :: (pySorted (requests.filter fun r => r < head)).reverse)
      else
        head :: ((pySorted (requests.filter fun r => r < head)).reverse ++
          (0 : Int) :: pySorted (requests.filter fun r => head ≤ r)) := rfl

/-- The order produced by `c_scan`, spelt out for each direction. -/
theorem c_scan_fst (requests : List Int) (head disk_size : Int) (direction : String) :
    (c_scan requests head disk_size direction).1 =
      if direction = "right" then
        head :: (pySorted (requests.filter fun r => head ≤ r) ++
          (disk_size - 1) :: (0 : Int) :: pySorted (requests.filter fun r => r < head))
      else
        head :: ((pySorted (requests.filter fun r => r < head)).reverse ++
          (0 : Int) :: (disk_size - 1) ::
            (pySorted (requests.filter fun r => head ≤ r)).reverse) := rfl

/-- **C1.** For every list of requests and every head position, the SSTF order
begins with the head, and the entry at each later step is a remaining (not yet
visited) request whose absolute distance to the previous entry is minimal
among all remaining requests, the first-encountered one in the current
iteration order when several are equidistant. -/
theorem sstf_greedy_nearest (requests : List Int) (head : Int) :
    (sstf requests head).1 = head :: (sstf requests head).1.tail ∧
    SstfChain head requests ((sstf requests head).1.tail) :=
  ⟨rfl, sstfGo_chain requests.length requests head rfl⟩

/-- **C10.** The SSTF order with its leading head entry removed is a
permutation of the input requests: the same multiset, each request visited
exactly as many times as it occurs in the input. -/
theorem sstf_tail_perm (requests : List Int) (head : Int) :
    ((sstf requests head).1.tail).Perm requests ∧
    ∀ x : Int, ((sstf requests head).1.tail).count x = requests.count x := by
  have h : ((sstf requests head).1.tail).Perm requests :=
    sstfGo_perm requests.length requests head rfl
  exact ⟨h, fun x => h.count_eq x⟩

/-- **C5.** FCFS returns the head followed by the requests in their original
input order with no sorting, its total is the sum of absolute consecutive
differences, and on requests `[82,170,43,140,24,16,190]` with head `50` the
total seek distance is `642`. -/
theorem fcfs_preserves_input (requests : List Int) (head : Int) :
    (fcfs requests head).1 = head :: requests ∧
    (fcfs requests head).1.tail = requests ∧
    (fcfs requests head).2 = seekTotal (head :: requests) ∧
    (fcfs [82, 170, 43, 140, 24, 16, 190] 50).2 = 642 :=
  ⟨rfl, rfl, rfl, by decide⟩

/-- **C9.** No policy mutates the caller's request list.  `sstf` is the only
policy containing a mutating statement (`reqs.remove`); in its statement-level
model the mutation hits the working copy only, so the `requests` field is
unchanged by any number of loop iterations, while the accumulated order is
exactly the functional `sstf` order.  FCFS, SCAN and C-SCAN contain no
mutating statement (`[head] + requests`, `sorted` and list comprehensions
all allocate fresh lists) and are modelled directly as pure functions. -/
theorem sstf_requests_unchanged (requests : List Int) (head : Int) :
    (∀ (n : Nat) (s : SstfState), (sstfRun n s).requests = s.requests) ∧
    (sstfRun requests.length ⟨requests, requests, [head], head⟩).requests = requests ∧
    (sstfRun requests.length ⟨requests, requests, [head], head⟩).order =
      (sstf requests head).1 := by
  refine ⟨fun n s => sstfRun_requests n s, sstfRun_requests _ _, ?_⟩
  rw [sstfRun_order]
  rfl

/-- **C2.** SCAN partitions the requests into `left` (strictly below the
head) and `right` (at or above the head), each sorted ascending; with
direction `"right"` (toward-higher) the order is head, `right` ascending,
`size-1`, `left` descending; with direction `"left"` (toward-lower) it is
head, `left` descending, `0`, `right` ascending; exactly one boundary
sentinel is injected per run (the order grows by exactly one entry beyond
the requests), whether or not a request sits at that boundary. -/
theorem scan_partition_order (requests : List Int) (head disk_size : Int) :
    ∃ l r : List Int,
      List.Sorted (· ≤ ·) l ∧ List.Sorted (· ≤ ·) r ∧
      l.Perm (requests.filter fun x => x < head) ∧
      r.Perm (requests.filter fun x => head ≤ x) ∧
      (scan requests head disk_size "right").1 =
        head :: (r ++ (disk_size - 1) :: l.reverse) ∧
      (scan requests head disk_size "left").1 =
        head :: (l.reverse ++ (0 : Int) :: r) ∧
      (scan requests head disk_size "right").1.length = 1 + requests.length + 1 ∧
      (scan requests head disk_size "left").1.length = 1 + requests.length + 1 := by
  have hsplit := length_filter_split requests head
  refine ⟨pySorted (requests.filter fun x => x < head),
    pySorted (requests.filter fun x => head ≤ x),
    pySorted_sorted _, pySorted_sorted _, pySorted_perm _, pySorted_perm _,
    ?_, ?_, ?_, ?_⟩
  · rw [scan_fst, if_pos rfl]
  · rw [scan_fst, if_neg (by decide)]
  · rw [scan_fst, if_pos rfl]
    simp [pySorted_length]
    omega
  · rw [scan_fst, if_neg (by decide)]
    simp [pySorted_length]
    omega

/-- **C3.** C-SCAN uses the same partition as SCAN; with direction `"right"`
(toward-higher) the order is head, `right` ascending, `size-1`, `0`, then
`left` ascending (not reversed); with direction `"left"` (toward-lower) it is
head, `left` descending, `0`, `size-1`, then `right` descending; both
boundary sentinels are always injected (the order grows by exactly two
entries beyond the requests). -/
theorem c_scan_partition_order (requests : List Int) (head disk_size : Int) :
    ∃ l r : List Int,
      List.Sorted (· ≤ ·) l ∧ List.Sorted (· ≤ ·) r ∧
      l.Perm (requests.filter fun x => x < head) ∧
      r.Perm (requests.filter fun x => head ≤ x) ∧
      (c_scan requests head disk_size "right").1 =
        head :: (r ++ (disk_size - 1) :: (0 : Int) :: l) ∧
      (c_scan requests head disk_size "left").1 =
        head :: (l.reverse ++ (0 : Int) :: (disk_size - 1) :: r.reverse) ∧
      (c_scan requests head disk_size "right").1.length = 1 + requests.length + 2 ∧
      (c_scan requests head disk_size "left").1.length = 1 + requests.length + 2 := by
  have hsplit := length_filter_split requests head
  refine ⟨pySorted (requests.filter fun x => x < head),
    pySorted (requests.filter fun x => head ≤ x),
    pySorted_sorted _, pySorted_sorted _, pySorted_perm _, pySorted_perm _,
    ?_, ?_, ?_, ?_⟩
  · rw [c_scan_fst, if_pos rfl]
  · rw [c_scan_fst, if_neg (by decide)]
  · rw [c_scan_fst, if_pos rfl]
    simp [pySorted_length]
    omega
  · rw [c_scan_fst, if_neg (by decide)]
    simp [pySorted_length]
    omega

/-- **C6.** For every request list — including ones with an empty `left` or
`right` partition — every policy's order starts with the head, and its length
is `1 + len(requests)` for FCFS and SSTF, `1 + len(requests) + 1` for SCAN,
and `1 + len(requests) + 2` for C-SCAN, independent of whether any request
coincides with a boundary position. -/
theorem order_head_and_length (p : Policy) (requests : List Int)
    (head disk_size : Int) (direction : String) :
    (runPolicy p requests head disk_size direction).1.head? = some head ∧
    (runPolicy p requests head disk_size direction).1.length =
      1 + requests.length +
        (match p with | .FCFS => 0 | .SSTF => 0 | .SCAN => 1 | .CSCAN => 2) := by
  have hsplit := length_filter_split requests head
  cases p with
  | FCFS =>
    refine ⟨rfl, ?_⟩
    simp [runPolicy, fcfs]
    omega
  | SSTF =>
    refine ⟨rfl, ?_⟩
    have hperm := sstfGo_perm requests.length requests head rfl
    simp [runPolicy, sstf, hperm.length_eq]
    omega
  | SCAN =>
    constructor
    · simp only [runPolicy]
      rw [scan_fst]
      split <;> rfl
    · simp only [runPolicy]
      rw [scan_fst]
      split <;> (simp [pySorted_length]; omega)
  | CSCAN =>
    constructor
    · simp only [runPolicy]
      rw [c_scan_fst]
      split <;> rfl
    · simp only [runPolicy]
      rw [c_scan_fst]
      split <;> (simp [pySorted_length]; omega)

/-- **C4 counterexample.** For requests `[5]` with head `3` (size 200,
direction `"right"`), SCAN produces the order `[3, 5, 199]` with total `196`,
and the handler computes average `196` (total divided by `len(requests) = 1`),
while the claimed formula `total / (len(order) - 1)` yields `98 ≠ 196`. -/
theorem runSimulation_avg_divisor_counterexample :
    runSimulation .SCAN [5] 3 200 "right" = some ([3, 5, 199], 196, 196, 1 / 196) ∧
    (196 : ℚ) / ((([3, 5, 199] : List Int).length : ℚ) - 1) ≠ 196 := by
  constructor
  · have hscan : scan [5] 3 200 "right" = ([3, 5, 199], 196) := by decide
    simp [runSimulation, runPolicy, simulationMetrics, hscan]
  · norm_num

/-- **C4 (amended).** For every policy and non-empty request list, the total
is the sum of consecutive absolute differences of the produced order, the
average is total divided by `len(requests)`, and the throughput is
`len(requests) / total` when the total is non-zero and the sentinel `0`
otherwise.  For FCFS and SSTF `len(requests) = len(order) - 1`, so the
claimed divisor is correct there; for SCAN and C-SCAN the divisor stays
`len(requests)`, not `len(order) - 1`. -/
theorem runSimulation_metrics (p : Policy) (requests : List Int)
    (head disk_size : Int) (direction : String) (h : requests ≠ []) :
    (runPolicy p requests head disk_size direction).2 =
      seekTotal (runPolicy p requests head disk_size direction).1 ∧
    runSimulation p requests head disk_size direction = some
      ((runPolicy p requests head disk_size direction).1,
       (runPolicy p requests head disk_size direction).2,
       ((runPolicy p requests head disk_size direction).2 : ℚ) /
         (requests.length : ℚ),
       if (runPolicy p requests head disk_size direction).2 ≠ 0 then
         (requests.length : ℚ) /
           ((runPolicy p requests head disk_size direction).2 : ℚ)
       else 0) ∧
    ((p = .FCFS ∨ p = .SSTF) →
      (runPolicy p requests head disk_size direction).1.length - 1 =
        requests.length) := by
  have hlen : ¬ requests.length = 0 := by
    simpa [List.length_eq_zero] using h
  refine ⟨by cases p <;> rfl, ?_, ?_⟩
  · simp only [runSimulation, simulationMetrics, if_neg hlen]
  · rintro (rfl | rfl)
    · simp [runPolicy, fcfs]
    · have hperm := sstfGo_perm requests.length requests head rfl
      simp [runPolicy, sstf, hperm.length_eq]

/-- Concrete instantiation of `runSimulation_metrics`: FCFS on requests `[1]`
with head `0`. -/
theorem runSimulation_metrics_witness :
    ([1] : List Int) ≠ [] ∧
    ((runPolicy .FCFS [1] 0 10 "right").2 =
        seekTotal (runPolicy .FCFS [1] 0 10 "right").1 ∧
      runSimulation .FCFS [1] 0 10 "right" = some
        ((runPolicy .FCFS [1] 0 10 "right").1,
         (runPolicy .FCFS [1] 0 10 "right").2,
         ((runPolicy .FCFS [1] 0 10 "right").2 : ℚ) /
           ((([1] : List Int)).length : ℚ),
         if (runPolicy .FCFS [1] 0 10 "right").2 ≠ 0 then
           ((([1] : List Int)).length : ℚ) /
             ((runPolicy .FCFS [1] 0 10 "right").2 : ℚ)
         else 0) ∧
      ((Policy.FCFS = .FCFS ∨ Policy.FCFS = .SSTF) →
        (runPolicy .FCFS [1] 0 10 "right").1.length - 1 =
          (([1] : List Int)).length)) :=
  ⟨by decide, runSimulation_metrics .FCFS [1] 0 10 "right" (by decide)⟩

/-- **C7 counterexample.** For the empty request list every policy returns a
degenerate result instead of failing: FCFS and SSTF return the bare head,
SCAN and C-SCAN the head plus boundary sentinels; no error value exists in
the core. -/
theorem empty_requests_degenerate :
    fcfs [] 50 = ([50], 0) ∧ sstf [] 50 = ([50], 0) ∧
    (scan [] 50 200 "right").1 = [50, 199] ∧
    (c_scan [] 50 200 "right").1 = [50, 199, 0] := by decide

/-- **C7 (amended).** For the empty request list the policy functions return
degenerate single-head (plus sentinel) orders, and the Run Simulation handler
then fails — regardless of the selected policy — with an unhandled
`ZeroDivisionError` while computing the average (modelled as `none`), not
with a typed `EmptyRequestSet` error. -/
theorem runSimulation_empty_none (p : Policy) (head disk_size : Int)
    (direction : String) :
    runSimulation p [] head disk_size direction = none := by
  cases p <;> rfl

/-- **C8 counterexample.** For the empty request list the Compare All handler
produces no per-policy results at all: building the result table divides by
`len(request_list) = 0` (modelled as `none`). -/
theorem compareAll_empty : compareAll [] 50 200 = none := rfl

/-- **C8 (amended).** For every non-empty request list, head and size, the
Compare All handler runs all four policies over the same input, with the
fixed direction `"right"` (toward-higher) for SCAN and C-SCAN, and produces
exactly one result per policy — order, total, average, throughput — keyed by
policy name in the declaration order FCFS, SSTF, SCAN, C-SCAN.  (For the
empty request list it instead aborts with a `ZeroDivisionError`.) -/
theorem compareAll_four_policies (requests : List Int) (head disk_size : Int)
    (h : requests ≠ []) :
    compareAll requests head disk_size = some
      [("FCFS", (fcfs requests head).1, (fcfs requests head).2,
        ((fcfs requests head).2 : ℚ) / (requests.length : ℚ),
        if (fcfs requests head).2 ≠ 0 then
          (requests.length : ℚ) / ((fcfs requests head).2 : ℚ) else 0),
       ("SSTF", (sstf requests head).1, (sstf requests head).2,
        ((sstf requests head).2 : ℚ) / (requests.length : ℚ),
        if (sstf requests head).2 ≠ 0 then
          (requests.length : ℚ) / ((sstf requests head).2 : ℚ) else 0),
       ("SCAN", (scan requests head disk_size "right").1,
        (scan requests head disk_size "right").2,
        ((scan requests head disk_size "right").2 : ℚ) / (requests.length : ℚ),
        if (scan requests head disk_size "right").2 ≠ 0 then
          (requests.length : ℚ) / ((scan requests head disk_size "right").2 : ℚ)
        else 0),
       ("C-SCAN", (c_scan requests head disk_size "right").1,
        (c_scan requests head disk_size "right").2,
        ((c_scan requests head disk_size "right").2 : ℚ) / (requests.length : ℚ),
        if (c_scan requests head disk_size "right").2 ≠ 0 then
          (requests.length : ℚ) / ((c_scan requests head disk_size "right").2 : ℚ)
        else 0)] := by
  have hlen : ¬ requests.length = 0 := by
    simpa [List.length_eq_zero] using h
  have h1 : compareRun requests head disk_size "FCFS" = fcfs requests head := rfl
  have h2 : compareRun requests head disk_size "SSTF" = sstf requests head := rfl
  have h3 : compareRun requests head disk_size "SCAN" =
      scan requests head disk_size "right" := rfl
  have h4 : compareRun requests head disk_size "C-SCAN" =
      c_scan requests head disk_size "right" := rfl
  simp only [compareAll, algorithmNames, List.map_cons, List.map_nil,
    if_neg hlen, h1, h2, h3, h4]

/-- Concrete instantiation of `compareAll_four_policies`: requests `[1]`,
head `0`, size `10`. -/
theorem compareAll_four_policies_witness :
    ([1] : List Int) ≠ [] ∧
    compareAll [1] 0 10 = some
      [("FCFS", (fcfs [1] 0).1, (fcfs [1] 0).2,
        ((fcfs [1] 0).2 : ℚ) / ((([1] : List Int)).length : ℚ),
        if (fcfs [1] 0).2 ≠ 0 then
          ((([1] : List Int)).length : ℚ) / ((fcfs [1] 0).2 : ℚ) else 0),
       ("SSTF", (sstf [1] 0).1, (sstf [1] 0).2,
        ((sstf [1] 0).2 : ℚ) / ((([1] : List Int)).length : ℚ),
        if (sstf [1] 0).2 ≠ 0 then
          ((([1] : List Int)).length : ℚ) / ((sstf [1] 0).2 : ℚ) else 0),
       ("SCAN", (scan [1] 0 10 "right").1, (scan [1] 0 10 "right").2,
        ((scan [1] 0 10 "right").2 : ℚ) / ((([1] : List Int)).length : ℚ),
        if (scan [1] 0 10 "right").2 ≠ 0 then
          ((([1] : List Int)).length : ℚ) / ((scan [1] 0 10 "right").2 : ℚ)
        else 0),
       ("C-SCAN", (c_scan [1] 0 10 "right").1, (c_scan [1] 0 10 "right").2,
        ((c_scan [1] 0 10 "right").2 : ℚ) / ((([1] : List Int)).length : ℚ),
        if (c_scan [1] 0 10 "right").2 ≠ 0 then
          ((([1] : List Int)).length : ℚ) / ((c_scan [1] 0 10 "right").2 : ℚ)
        else 0)] :=
  ⟨by decide, compareAll_four_policies [1] 0 10 (by decide)⟩

end DiskSched
